import Mathlib

/-!
Verification of the TLDR embedding-based recommendation core.

The Python source is shallowly embedded as follows:

* a Python string is a `List Char`; the slice `t[i:i+n]` is `(t.drop i).take n`;
* the chunking comprehension
  `[t[i:i+c] for i in range(0, len(t), c)]`
  (from `get_minilm_recs` and `preprocess_minilm`) is `chunksOf`;
* the external embedding model `model.encode` is an abstract parameter
  `encode : List Char → List ℝ`;
* `np.mean(vs, axis=0)` on a non-empty list of equal-length vectors is `npMean`;
* `sklearn.metrics.pairwise.cosine_similarity` row semantics is `cosineSim`
  (sklearn L2-normalises each vector, replacing a zero norm by 1, then takes
  the dot product);
* Python `sorted(pairs, key=lambda x: x[1], reverse=True)` is a stable
  descending sort on the second component; stable sorts are extensionally
  unique, so it is embedded as `List.insertionSort` with the relation
  `snd b ≤ snd a` (an element is inserted before every later element of
  equal key, which is exactly Python's stability guarantee);
* the data files read by `load_data` (the two CSV catalogs and the two
  pickled embedding lists) are a `FileSystem` record holding their contents;
* writing a pickle file opened with mode "wb" is `savedEmbeddingsFile`:
  opening truncates the target, and the new content is flushed item by item,
  so an interruption after `k` items leaves `new.take k` on disk.
-/

/-- Python slice `t[i:i+n]` of a string modelled as a list of characters. -/
def pySlice (t : List Char) (i n : Nat) : List Char := (t.drop i).take n

/-- The start offsets `range(0, len, c)` used by the chunking comprehension:
`ceil (len / c)` offsets `0, c, 2c, …`. -/
def sliceStarts (len c : Nat) : List Nat :=
  (List.range ((len + c - 1) / c)).map (fun k => k * c)

/-- The chunking comprehension
`chunks = [t[i:i+c] for i in range(0, len(t), c)]`
from `get_minilm_recs` (line 46) and `preprocess_minilm` (line 45). -/
def chunksOf (t : List Char) (c : Nat) : List (List Char) :=
  (sliceStarts t.length c).map (fun i => pySlice t i c)

theorem chunksOf_nil (c : Nat) : chunksOf [] c = [] := by
  rcases Nat.eq_zero_or_pos c with hc | hc
  · subst hc; rfl
  · unfold chunksOf sliceStarts
    have h : (([] : List Char).length + c - 1) / c = 0 :=
      Nat.div_eq_of_lt (by simp; omega)
    rw [h]; rfl

theorem chunkCount_succ {L c : Nat} (hL : 0 < L) (hc : 0 < c) :
    (L + c - 1) / c = ((L - c) + c - 1) / c + 1 := by
  have h1 : L + c - 1 = (L - 1) + c := by omega
  rw [h1, Nat.add_div_right _ hc]
  rcases le_or_lt L c with h | h
  · have h2 : L - c = 0 := by omega
    have h3 : (L - 1) / c = 0 := Nat.div_eq_of_lt (by omega)
    have h4 : (c - 1) / c = 0 := Nat.div_eq_of_lt (by omega)
    rw [h2, h3]; simp [h4]
  · have h2 : (L - c) + c - 1 = L - 1 := by omega
    rw [h2]

theorem chunksOf_cons {t : List Char} {c : Nat} (ht : t ≠ []) (hc : 0 < c) :
    chunksOf t c = t.take c :: chunksOf (t.drop c) c := by
  have hL : 0 < t.length := List.length_pos.mpr ht
  unfold chunksOf sliceStarts
  rw [List.length_drop, chunkCount_succ hL hc, List.range_succ_eq_map]
  simp only [List.map_cons, List.map_map]
  refine List.cons_eq_cons.mpr ⟨?_, ?_⟩
  · unfold pySlice
    simp
  · apply List.map_congr_left
    intro k _
    unfold pySlice
    simp only [Function.comp_apply, Nat.succ_eq_add_one]
    rw [show (k + 1) * c = k * c + c by ring, Nat.add_comm (k * c) c,
      ← List.drop_drop]

theorem flatten_chunksOf {c : Nat} (hc : 0 < c) (t : List Char) :
    (chunksOf t c).flatten = t := by
  generalize hn : t.length = n
  induction n using Nat.strong_induction_on generalizing t with
  | _ n ih =>
    rcases eq_or_ne t [] with rfl | ht
    · rw [chunksOf_nil]; rfl
    · have hL : 0 < t.length := List.length_pos.mpr ht
      rw [chunksOf_cons ht hc, List.flatten_cons,
        ih ((t.drop c).length) (by rw [List.length_drop]; omega) (t.drop c) rfl]
      exact List.take_append_drop c t

theorem chunksOf_shape {c : Nat} (hc : 0 < c) (t : List Char) (ht : t ≠ []) :
    ∃ h : chunksOf t c ≠ [],
      (∀ x ∈ (chunksOf t c).dropLast, x.length = c) ∧
      1 ≤ ((chunksOf t c).getLast h).length ∧
      ((chunksOf t c).getLast h).length ≤ c := by
  generalize hn : t.length = n
  induction n using Nat.strong_induction_on generalizing t with
  | _ n ih =>
    have hL : 0 < t.length := List.length_pos.mpr ht
    rw [chunksOf_cons ht hc]
    rcases le_or_lt t.length c with hlen | hlen
    · have hdrop : t.drop c = [] := by
        apply List.eq_nil_of_length_eq_zero
        rw [List.length_drop]; omega
      rw [hdrop, chunksOf_nil]
      refine ⟨by simp, ?_, ?_, ?_⟩
      · intro x hx; simp at hx
      · simp [List.getLast]
        omega
      · simp [List.getLast]
    · have hdrop : t.drop c ≠ [] := by
        intro h
        have := congrArg List.length h
        rw [List.length_drop] at this
        simp at this; omega
      obtain ⟨hne, hinit, hlast1, hlast2⟩ :=
        ih ((t.drop c).length) (by rw [List.length_drop]; omega) (t.drop c) hdrop rfl
      refine ⟨by simp, ?_, ?_, ?_⟩
      · intro x hx
        rw [List.dropLast_cons_of_ne_nil hne] at hx
        rcases List.mem_cons.mp hx with rfl | hx
        · rw [List.length_take]; omega
        · exact hinit x hx
      · rw [List.getLast_cons hne]; exact hlast1
      · rw [List.getLast_cons hne]; exact hlast2

/-- C2: for every non-empty text `T` and `chunkSize ≥ 1`, the chunker splits
`T` into contiguous non-overlapping substrings whose concatenation reproduces
`T` exactly, every chunk except possibly the last has length exactly
`chunkSize`, and the last chunk has length between 1 and `chunkSize`. -/
theorem chunker_partitions_text (t : List Char) (c : Nat)
    (ht : t ≠ []) (hc : 1 ≤ c) :
    (chunksOf t c).flatten = t ∧
    (∀ x ∈ (chunksOf t c).dropLast, x.length = c) ∧
    ∃ h : chunksOf t c ≠ [],
      1 ≤ ((chunksOf t c).getLast h).length ∧
      ((chunksOf t c).getLast h).length ≤ c := by
  obtain ⟨hne, hinit, h1, h2⟩ := chunksOf_shape hc t ht
  exact ⟨flatten_chunksOf hc t, hinit, hne, h1, h2⟩

/-- Witness for C2 at the concrete text "abc" with chunk size 2. -/
theorem chunker_partitions_text_witness :
    (['a', 'b', 'c'] : List Char) ≠ [] ∧ 1 ≤ 2 ∧
    ((chunksOf ['a', 'b', 'c'] 2).flatten = ['a', 'b', 'c'] ∧
    (∀ x ∈ (chunksOf ['a', 'b', 'c'] 2).dropLast, x.length = 2) ∧
    ∃ h : chunksOf ['a', 'b', 'c'] 2 ≠ [],
      1 ≤ ((chunksOf ['a', 'b', 'c'] 2).getLast h).length ∧
      ((chunksOf ['a', 'b', 'c'] 2).getLast h).length ≤ 2) :=
  ⟨by decide, by decide, chunker_partitions_text ['a', 'b', 'c'] 2 (by decide) (by decide)⟩

/-- Elementwise running sum of a list of vectors, as the summation inside
np.mean(vs, axis=0) on equal-length rows. -/
noncomputable def sumVecs : List (List ℝ) → List ℝ
  | [] => []
  | [v] => v
  | v :: vs => List.zipWith (· + ·) v (sumVecs vs)

/-- np.mean(vs, axis=0): the elementwise arithmetic mean of the rows.  The
claims only apply it to non-empty inputs; the empty case is the degenerate
empty vector (numpy would produce NaN there). -/
noncomputable def npMean (vs : List (List ℝ)) : List ℝ :=
  (sumVecs vs).map (fun x => x / (vs.length : ℝ))

/-- user_input_embedding (get_minilm_recs lines 45-47): chunk the transcript
with chunk_size 256, encode every chunk, and mean-pool the chunk vectors. -/
noncomputable def userInputEmbedding (encode : List Char → List ℝ)
    (input_transcript : List Char) : List ℝ :=
  npMean ((chunksOf input_transcript 256).map encode)

/-- transcript_embedding (preprocess_minilm lines 45-47): the same
chunk-encode-mean computation applied to one corpus transcript. -/
noncomputable def transcriptEmbedding (encode : List Char → List ℝ)
    (transcript : List Char) : List ℝ :=
  npMean ((chunksOf transcript 256).map encode)

/-- C7: a text of at most the chunk size (so it produces exactly one chunk)
is vectorized to exactly the embedding of that text as a single chunk: the
mean of one vector is that vector itself. -/
theorem single_chunk_mean_identity (encode : List Char → List ℝ)
    (t : List Char) (ht : t ≠ []) (hlen : t.length ≤ 256) :
    userInputEmbedding encode t = encode t := by
  have hchunk : chunksOf t 256 = [t] := by
    rw [chunksOf_cons ht (by norm_num), List.drop_eq_nil_of_le hlen,
      chunksOf_nil, List.take_of_length_le hlen]
  unfold userInputEmbedding
  rw [hchunk]
  show npMean [encode t] = encode t
  unfold npMean
  show (encode t).map (fun x => x / ((1 : ℕ) : ℝ)) = encode t
  simp

/-- Witness for C7 at the one-character text "a" and a concrete embedder. -/
theorem single_chunk_mean_identity_witness :
    (['a'] : List Char) ≠ [] ∧ (['a'] : List Char).length ≤ 256 ∧
    userInputEmbedding (fun t => [(t.length : ℝ)]) ['a'] =
      (fun (t : List Char) => [(t.length : ℝ)]) ['a'] :=
  ⟨by decide, by decide,
    single_chunk_mean_identity (fun t => [(t.length : ℝ)]) ['a'] (by decide) (by decide)⟩

/-- Dot product of two rows, as numpy computes it for equal-length vectors. -/
noncomputable def dotProd (u v : List ℝ) : ℝ := (List.zipWith (· * ·) u v).sum

/-- Euclidean norm of a row. -/
noncomputable def l2norm (v : List ℝ) : ℝ := Real.sqrt (dotProd v v)

/-- sklearn normalize on one row: divide by the L2 norm, with zero norms
replaced by 1 (so a zero vector is left unchanged). -/
noncomputable def sklearnNormalize (v : List ℝ) : List ℝ :=
  v.map (fun x => x / (if l2norm v = 0 then 1 else l2norm v))

/-- One entry of sklearn.metrics.pairwise.cosine_similarity (get_minilm_recs
line 50): normalize both rows, then take the dot product. -/
noncomputable def cosineSim (u v : List ℝ) : ℝ :=
  dotProd (sklearnNormalize u) (sklearnNormalize v)

theorem dotProd_self_nonneg (v : List ℝ) : 0 ≤ dotProd v v := by
  induction v with
  | nil => simp [dotProd]
  | cons a v ih =>
    have h : dotProd (a :: v) (a :: v) = a * a + dotProd v v := by
      simp [dotProd]
    rw [h]
    nlinarith [mul_self_nonneg a, ih]

theorem dotProd_eq_zero_of_self_zero {u : List ℝ} (h : dotProd u u = 0) :
    ∀ v : List ℝ, dotProd u v = 0 := by
  induction u with
  | nil => intro v; simp [dotProd]
  | cons a u ih =>
    intro v
    have hsplit : dotProd (a :: u) (a :: u) = a * a + dotProd u u := by
      simp [dotProd]
    rw [hsplit] at h
    have ha : a * a = 0 ∧ dotProd u u = 0 := by
      constructor
      · nlinarith [dotProd_self_nonneg u, mul_self_nonneg a]
      · nlinarith [dotProd_self_nonneg u, mul_self_nonneg a]
    have ha0 : a = 0 := by nlinarith [ha.1]
    cases v with
    | nil => simp [dotProd]
    | cons b v =>
      have : dotProd (a :: u) (b :: v) = a * b + dotProd u v := by
        simp [dotProd]
      rw [this, ha0, ih ha.2 v]
      ring

theorem dotProd_map_div (u v : List ℝ) (c d : ℝ) :
    dotProd (u.map (fun x => x / c)) (v.map (fun x => x / d)) =
      dotProd u v / (c * d) := by
  induction u generalizing v with
  | nil => simp [dotProd]
  | cons a u ih =>
    cases v with
    | nil => simp [dotProd]
    | cons b v =>
      have h1 : dotProd ((a :: u).map (fun x => x / c)) ((b :: v).map (fun x => x / d)) =
          a / c * (b / d) + dotProd (u.map (fun x => x / c)) (v.map (fun x => x / d)) := by
        simp [dotProd]
      have h2 : dotProd (a :: u) (b :: v) = a * b + dotProd u v := by
        simp [dotProd]
      rw [h1, h2, ih v, div_mul_div_comm, add_div]

theorem l2norm_zero_dot {u : List ℝ} (h : l2norm u = 0) : dotProd u u = 0 := by
  unfold l2norm at h
  exact (Real.sqrt_eq_zero (dotProd_self_nonneg u)).mp h

/-- C8: the similarity the ranker computes equals dot(q,v) / (‖q‖·‖v‖),
except that when either vector has zero norm the similarity is 0; no
division by zero occurs (the computation is total). -/
theorem cosine_zero_norm_safe (u v : List ℝ) :
    cosineSim u v =
      if l2norm u = 0 ∨ l2norm v = 0 then 0
      else dotProd u v / (l2norm u * l2norm v) := by
  unfold cosineSim sklearnNormalize
  by_cases hu : l2norm u = 0
  · have hz : dotProd u v = 0 := dotProd_eq_zero_of_self_zero (l2norm_zero_dot hu) v
    rw [if_pos hu, dotProd_map_div, hz]
    simp [hu]
  · by_cases hv : l2norm v = 0
    · have hz : dotProd v v = 0 := l2norm_zero_dot hv
      have hz2 : dotProd u v = 0 := by
        have huv : dotProd v u = 0 := dotProd_eq_zero_of_self_zero hz u
        calc dotProd u v = (List.zipWith (· * ·) u v).sum := rfl
          _ = (List.zipWith (· * ·) v u).sum := by rw [List.zipWith_comm_of_comm]; intro x y; ring
          _ = 0 := huv
      rw [if_neg hu, if_pos hv, dotProd_map_div, hz2]
      simp [hu, hv]
    · rw [if_neg hu, if_neg hv, dotProd_map_div]
      simp [hu, hv]

theorem filter_orderedInsert {α : Type} (r : α → α → Prop) [DecidableRel r]
    (q : α → Bool) (hq : ∀ a b, q a = true → q b = true → r a b)
    (x : α) (l : List α) :
    (List.orderedInsert r x l).filter q = (x :: l).filter q := by
  induction l with
  | nil => rfl
  | cons y ys ih =>
    by_cases hr : r x y
    · simp only [List.orderedInsert, if_pos hr]
    · simp only [List.orderedInsert, if_neg hr]
      by_cases hx : q x = true
      · by_cases hy : q y = true
        · exact absurd (hq x y hx hy) hr
        · simp only [List.filter_cons, hx, hy, if_pos, if_neg, ih,
            Bool.false_eq_true, ite_false, ite_true]
      · by_cases hy : q y = true <;>
          simp only [List.filter_cons, hx, hy, ih, Bool.false_eq_true,
            ite_false, ite_true]

theorem filter_insertionSort {α : Type} (r : α → α → Prop) [DecidableRel r]
    (q : α → Bool) (hq : ∀ a b, q a = true → q b = true → r a b)
    (l : List α) :
    (List.insertionSort r l).filter q = l.filter q := by
  induction l with
  | nil => rfl
  | cons a l ih =>
    show (List.orderedInsert r a (List.insertionSort r l)).filter q = _
    rw [filter_orderedInsert r q hq a (List.insertionSort r l),
      List.filter_cons, List.filter_cons, ih]

/-- ranked_transcripts (get_minilm_recs line 53):
sorted(zip(titles, similarity_scores), key=lambda x: x[1], reverse=True).
Python's sort is stable and reverse=True keeps equal keys in input order, so
it is embedded as the stable insertion sort on the relation
"my score is at least yours". -/
noncomputable def rankedTranscripts (pairs : List (String × ℝ)) :
    List (String × ℝ) :=
  List.insertionSort (fun a b => b.2 ≤ a.2) pairs

/-- One row of a catalog CSV. load_data consumes the title column; the
catalog also carries a url and a source-text column (the transcript), which
pandas may surface as a non-string cell (NaN), modelled as none. -/
structure CatalogRow where
  title : String
  url : String
  sourceText : Option String
deriving DecidableEq

/-- Contents of the four data files the program reads and writes: the two
catalog CSVs and the two pickled embedding lists. -/
structure FileSystem where
  tedCatalog : List CatalogRow
  tedEmbeddings : List (List ℝ)
  podcastCatalog : List CatalogRow
  podcastEmbeddings : List (List ℝ)

/-- load_data (minilm_get_recommedations.py lines 69-96): the branch is chosen
by the test ted_or_podcast == "ted"; every other value takes the else branch
and loads the podcast files.  The function returns df["title"].tolist() and
the unpickled embeddings; it performs no category validation and no length
check between the two. -/
def load_data (fs : FileSystem) (ted_or_podcast : String) :
    List String × List (List ℝ) :=
  if ted_or_podcast = "ted" then
    (fs.tedCatalog.map (fun r => r.title), fs.tedEmbeddings)
  else
    (fs.podcastCatalog.map (fun r => r.title), fs.podcastEmbeddings)

/-- similarity_scores (get_minilm_recs line 50): the cosine similarity of the
query vector against every corpus vector, one score per corpus row. -/
noncomputable def similarityScores (q : List ℝ) (embeddings : List (List ℝ)) :
    List ℝ :=
  embeddings.map (fun e => cosineSim q e)

/-- get_minilm_recs after its validation prologue (lines 39-67): load the
corpus, embed the input transcript, score every corpus vector, stable-sort
the (title, score) pairs by descending score, and keep the first three. -/
noncomputable def get_minilm_recs_core (encode : List Char → List ℝ)
    (fs : FileSystem) (input_transcript : List Char) (ted_or_podcast : String) :
    List (String × ℝ) :=
  let titles := (load_data fs ted_or_podcast).1
  let embeddings := (load_data fs ted_or_podcast).2
  let q := userInputEmbedding encode input_transcript
  (rankedTranscripts (titles.zip (similarityScores q embeddings))).take 3

/-- Modelled from the spec: the validation module imported by
minilm_get_recommedations.py is not under src/.  Per the docstring of
get_minilm_recs (lines 27-31) and spec section 7, validation raises
ValueError when input_transcript is an empty string.  (The TypeError for a
non-string input cannot arise in this embedding, where the transcript is
always a List Char.) -/
def validate_input_transcript (t : List Char) : Except String Unit :=
  if t = [] then Except.error "ValueError: input_transcript is empty"
  else Except.ok ()

/-- Modelled from the spec: the validation module imported by
minilm_get_recommedations.py is not under src/.  Per the docstring of
get_minilm_recs (lines 27-31) and spec section 7, validation raises
ValueError when ted_or_podcast is neither "ted" nor "podcast". -/
def validate_ted_or_podcast (s : String) : Except String Unit :=
  if s = "ted" ∨ s = "podcast" then Except.ok ()
  else Except.error "ValueError: ted_or_podcast is neither ted nor podcast"

/-- get_minilm_recs (lines 19-67) including its validation prologue
(lines 36-37). -/
noncomputable def get_minilm_recs (encode : List Char → List ℝ)
    (fs : FileSystem) (input_transcript : List Char) (ted_or_podcast : String) :
    Except String (List (String × ℝ)) :=
  match validate_input_transcript input_transcript with
  | Except.error e => Except.error e
  | Except.ok _ =>
    match validate_ted_or_podcast ted_or_podcast with
    | Except.error e => Except.error e
    | Except.ok _ =>
      Except.ok (get_minilm_recs_core encode fs input_transcript ted_or_podcast)

/-- The embeddings list built by preprocess_minilm (lines 42-48): one document
vector is appended per transcript that passes the isinstance(transcript, str)
test; non-string rows are skipped and nothing is appended for them. -/
noncomputable def preprocessEmbeddings (encode : List Char → List ℝ) :
    List (Option (List Char)) → List (List ℝ)
  | [] => []
  | none :: rest => preprocessEmbeddings encode rest
  | some t :: rest =>
      transcriptEmbedding encode t :: preprocessEmbeddings encode rest

/-- The pickle path chosen by preprocess_minilm's save step (lines 51-56). -/
def persistPath (ted_or_podcast : String) : String :=
  if ted_or_podcast = "ted" then "ted_sentTrans_embeddings.pkl"
  else "podcast_sentTrans_embeddings.pkl"

/-- The on-disk contents of the embeddings file after preprocess_minilm's save
step (open(path, "wb") followed by pickle.dump) when the process stops after
k vectors have reached the disk: opening with mode "wb" truncates the prior
contents immediately, and the dump writes the new list front to back, so only
new.take k survives (k ≥ new.length means the write completed).  There is no
temporary file and no rename in the source. -/
def savedEmbeddingsFile (prior new : List (List ℝ)) (k : Nat) :
    List (List ℝ) :=
  new.take k

theorem rankedTranscripts_sorted (pairs : List (String × ℝ)) :
    List.Sorted (fun a b => b.2 ≤ a.2) (rankedTranscripts pairs) :=
  @List.sorted_insertionSort (String × ℝ) (fun a b => b.2 ≤ a.2) _
    ⟨fun a b => le_total b.2 a.2⟩ ⟨fun a b c h1 h2 => le_trans h2 h1⟩ pairs

theorem rankedTranscripts_perm (pairs : List (String × ℝ)) :
    (rankedTranscripts pairs).Perm pairs :=
  List.perm_insertionSort _ pairs

theorem rankedTranscripts_length (pairs : List (String × ℝ)) :
    (rankedTranscripts pairs).length = pairs.length :=
  List.length_insertionSort _ pairs

theorem rankedTranscripts_filter_score (pairs : List (String × ℝ)) (s : ℝ) :
    (rankedTranscripts pairs).filter (fun p => decide (p.2 = s)) =
      pairs.filter (fun p => decide (p.2 = s)) :=
  filter_insertionSort _ _
    (fun a b ha hb =>
      le_of_eq ((of_decide_eq_true hb).trans (of_decide_eq_true ha).symm))
    pairs

theorem get_minilm_recs_core_eq (encode : List Char → List ℝ)
    (fs : FileSystem) (input_transcript : List Char) (ted_or_podcast : String) :
    get_minilm_recs_core encode fs input_transcript ted_or_podcast =
      (rankedTranscripts ((load_data fs ted_or_podcast).1.zip
        (similarityScores (userInputEmbedding encode input_transcript)
          (load_data fs ted_or_podcast).2))).take 3 :=
  rfl

/-- C1: the ranker returns the recommendations sorted non-increasing by score,
truncated to the first 3 entries (all entries when the corpus is smaller),
and ties between equal scores are broken by a stable sort preserving the
original corpus order (stated as: filtering the sorted pair list at any fixed
score value gives back exactly the corpus-order sublist at that score). -/
theorem ranker_sorted_topk_stable (encode : List Char → List ℝ)
    (fs : FileSystem) (input_transcript : List Char) (ted_or_podcast : String)
    (hlen : (load_data fs ted_or_podcast).1.length =
      (load_data fs ted_or_podcast).2.length) :
    List.Sorted (fun a b => b.2 ≤ a.2)
      (get_minilm_recs_core encode fs input_transcript ted_or_podcast) ∧
    (get_minilm_recs_core encode fs input_transcript ted_or_podcast).length =
      min 3 (load_data fs ted_or_podcast).1.length ∧
    ∀ s : ℝ,
      (rankedTranscripts ((load_data fs ted_or_podcast).1.zip
        (similarityScores (userInputEmbedding encode input_transcript)
          (load_data fs ted_or_podcast).2))).filter (fun p => decide (p.2 = s)) =
      ((load_data fs ted_or_podcast).1.zip
        (similarityScores (userInputEmbedding encode input_transcript)
          (load_data fs ted_or_podcast).2)).filter (fun p => decide (p.2 = s)) := by
  refine ⟨?_, ?_, ?_⟩
  · rw [get_minilm_recs_core_eq]
    exact List.Pairwise.sublist (List.take_sublist 3 _) (rankedTranscripts_sorted _)
  · rw [get_minilm_recs_core_eq, List.length_take, rankedTranscripts_length,
      List.length_zip, similarityScores, List.length_map, ← hlen, min_self]
  · intro s
    exact rankedTranscripts_filter_score _ s

/-- Witness for C1 at a one-item corpus. -/
theorem ranker_sorted_topk_stable_witness :
    (load_data ⟨[⟨"t", "tu", some "x"⟩], [[1]], [⟨"p", "pu", some "y"⟩], [[2]]⟩
        "ted").1.length =
      (load_data ⟨[⟨"t", "tu", some "x"⟩], [[1]], [⟨"p", "pu", some "y"⟩], [[2]]⟩
        "ted").2.length ∧
    (List.Sorted (fun a b => b.2 ≤ a.2)
      (get_minilm_recs_core (fun _ => [1])
        ⟨[⟨"t", "tu", some "x"⟩], [[1]], [⟨"p", "pu", some "y"⟩], [[2]]⟩
        ['q'] "ted") ∧
    (get_minilm_recs_core (fun _ => [1])
        ⟨[⟨"t", "tu", some "x"⟩], [[1]], [⟨"p", "pu", some "y"⟩], [[2]]⟩
        ['q'] "ted").length =
      min 3 (load_data ⟨[⟨"t", "tu", some "x"⟩], [[1]], [⟨"p", "pu", some "y"⟩], [[2]]⟩
        "ted").1.length ∧
    ∀ s : ℝ,
      (rankedTranscripts ((load_data ⟨[⟨"t", "tu", some "x"⟩], [[1]],
          [⟨"p", "pu", some "y"⟩], [[2]]⟩ "ted").1.zip
        (similarityScores (userInputEmbedding (fun _ => [1]) ['q'])
          (load_data ⟨[⟨"t", "tu", some "x"⟩], [[1]], [⟨"p", "pu", some "y"⟩], [[2]]⟩
            "ted").2))).filter (fun p => decide (p.2 = s)) =
      ((load_data ⟨[⟨"t", "tu", some "x"⟩], [[1]], [⟨"p", "pu", some "y"⟩], [[2]]⟩
          "ted").1.zip
        (similarityScores (userInputEmbedding (fun _ => [1]) ['q'])
          (load_data ⟨[⟨"t", "tu", some "x"⟩], [[1]], [⟨"p", "pu", some "y"⟩], [[2]]⟩
            "ted").2)).filter (fun p => decide (p.2 = s))) :=
  ⟨rfl, ranker_sorted_topk_stable (fun _ => [1])
    ⟨[⟨"t", "tu", some "x"⟩], [[1]], [⟨"p", "pu", some "y"⟩], [[2]]⟩
    ['q'] "ted" rfl⟩

/-- A store whose ted catalog has one row but whose ted embedding file is
empty: the lengths mismatch. -/
def fsMismatch : FileSystem := ⟨[⟨"t", "u", some "x"⟩], [], [], []⟩

/-- C3 counterexample: on a store whose catalog and embedding lengths
mismatch, load_data succeeds and returns the mismatched corpus; it performs
no length check and raises nothing (no CorpusNotFoundError exists anywhere in
the code). -/
theorem load_data_no_length_check_cex :
    load_data fsMismatch "ted" = (["t"], []) ∧
    (load_data fsMismatch "ted").1.length ≠ (load_data fsMismatch "ted").2.length :=
  ⟨rfl, by decide⟩

/-- C3 amended: load_data performs no length validation at all — every
combination of catalog length and embedding-file length, mismatched or not,
is returned as-is by a successful load. -/
theorem load_data_returns_any_lengths (n m : Nat) :
    ∃ fs : FileSystem,
      (load_data fs "ted").1.length = n ∧ (load_data fs "ted").2.length = m := by
  refine ⟨⟨List.replicate n ⟨"", "", none⟩, List.replicate m [], [], []⟩, ?_, ?_⟩
  · simp [load_data]
  · simp [load_data]

/-- A store with distinct ted and podcast contents, to observe which branch
load_data takes. -/
def fsTwo : FileSystem :=
  ⟨[⟨"t", "tu", some "x"⟩], [[1]], [⟨"p", "pu", some "y"⟩], [[2]]⟩

/-- C6 counterexample: for the unrecognized category "cooking", load_data does
not fail — its else branch loads the podcast corpus. -/
theorem load_data_unknown_category_cex :
    ("cooking" ≠ "ted" ∧ "cooking" ≠ "podcast") ∧
    load_data fsTwo "cooking" =
      (fsTwo.podcastCatalog.map (fun r => r.title), fsTwo.podcastEmbeddings) :=
  ⟨⟨by decide, by decide⟩, rfl⟩

/-- C6 amended: an unrecognized category is rejected with a ValueError by the
caller's validation step (validate_ted_or_podcast, run before load_data), while
load_data itself performs no category check and, called directly, loads the
podcast corpus for every category other than "ted". -/
theorem unknown_category_rejected_by_validation (encode : List Char → List ℝ)
    (fs : FileSystem) (input_transcript : List Char) (ted_or_podcast : String)
    (hin : input_transcript ≠ []) (h1 : ted_or_podcast ≠ "ted")
    (h2 : ted_or_podcast ≠ "podcast") :
    get_minilm_recs encode fs input_transcript ted_or_podcast =
      Except.error "ValueError: ted_or_podcast is neither ted nor podcast" ∧
    load_data fs ted_or_podcast =
      (fs.podcastCatalog.map (fun r => r.title), fs.podcastEmbeddings) := by
  constructor
  · simp [get_minilm_recs, validate_input_transcript, validate_ted_or_podcast,
      hin, h1, h2]
  · rw [load_data, if_neg h1]

/-- Witness for C6 at the category "cooking" from the spec's example. -/
theorem unknown_category_rejected_by_validation_witness :
    (['q'] : List Char) ≠ [] ∧ "cooking" ≠ "ted" ∧ "cooking" ≠ "podcast" ∧
    (get_minilm_recs (fun _ => [1]) fsTwo ['q'] "cooking" =
      Except.error "ValueError: ted_or_podcast is neither ted nor podcast" ∧
    load_data fsTwo "cooking" =
      (fsTwo.podcastCatalog.map (fun r => r.title), fsTwo.podcastEmbeddings)) :=
  ⟨by decide, by decide, by decide,
    unknown_category_rejected_by_validation (fun _ => [1]) fsTwo ['q'] "cooking"
      (by decide) (by decide) (by decide)⟩

/-- C4 amended: the preprocessing loop appends one vector per string
transcript, in catalog order, and simply skips non-string rows: the persisted
list aligns with the filtered catalog, not with the original one, and its
length is the number of string rows (so a skipped row shifts every later
vector one position against the unmodified catalog). -/
theorem preprocess_skips_without_excluding (encode : List Char → List ℝ)
    (transcripts : List (Option (List Char))) :
    preprocessEmbeddings encode transcripts =
      (transcripts.filterMap id).map (transcriptEmbedding encode) ∧
    (preprocessEmbeddings encode transcripts).length =
      transcripts.countP (fun t => t.isSome) := by
  induction transcripts with
  | nil => exact ⟨rfl, rfl⟩
  | cons t rest ih =>
    cases t with
    | none =>
      refine ⟨?_, ?_⟩
      · show preprocessEmbeddings encode rest = _
        have hf : List.filterMap id (none :: rest) = List.filterMap id rest := rfl
        rw [hf, ih.1]
      · show (preprocessEmbeddings encode rest).length = _
        rw [ih.2, List.countP_cons]
        simp
    | some s =>
      refine ⟨?_, ?_⟩
      · show transcriptEmbedding encode s :: preprocessEmbeddings encode rest = _
        have hf : List.filterMap id (some s :: rest) = s :: List.filterMap id rest := rfl
        rw [hf, ih.1]
        rfl
      · show (transcriptEmbedding encode s :: preprocessEmbeddings encode rest).length = _
        rw [List.length_cons, ih.2, List.countP_cons]
        simp

/-- A concrete embedder used by the closed counterexamples. -/
noncomputable def encodeLen : List Char → List ℝ := fun t => [(t.length : ℝ)]

/-- A three-row transcript column whose middle cell is not a string. -/
def tsSkip : List (Option (List Char)) := [some ['a'], none, some ['b']]

/-- C4 counterexample: with a non-string transcript in row 1 (0-based), the
persisted embedding list has 2 entries against 3 catalog rows, and its entry
at position 1 is the embedding of catalog row 2's text — the skipped row's
catalog entry is not excluded anywhere (preprocess_minilm writes only the
pickle), so positional alignment is broken. -/
theorem preprocess_misalignment_cex :
    (preprocessEmbeddings encodeLen tsSkip).length = 2 ∧
    tsSkip.length = 3 ∧
    preprocessEmbeddings encodeLen tsSkip =
      [transcriptEmbedding encodeLen ['a'], transcriptEmbedding encodeLen ['b']] :=
  ⟨rfl, rfl, rfl⟩

/-- C10: when every transcript in the catalog column is a string, the
preprocessing loop produces exactly one embedding vector per catalog row, in
catalog order. -/
theorem preprocess_one_vector_per_row (encode : List Char → List ℝ)
    (transcripts : List (List Char)) :
    preprocessEmbeddings encode (transcripts.map some) =
      transcripts.map (transcriptEmbedding encode) ∧
    (preprocessEmbeddings encode (transcripts.map some)).length =
      transcripts.length := by
  induction transcripts with
  | nil => exact ⟨rfl, rfl⟩
  | cons t rest ih =>
    refine ⟨?_, ?_⟩
    · show transcriptEmbedding encode t :: preprocessEmbeddings encode (rest.map some) = _
      rw [ih.1]
      rfl
    · show (transcriptEmbedding encode t :: preprocessEmbeddings encode (rest.map some)).length = _
      rw [List.length_cons, ih.2, List.length_cons]

/-- C5 counterexample: the save step writes the pickle directly to its final
path with open(path, "wb"); interrupted after one of two vectors, the file
holds a truncated list that is neither the prior version nor the new one. -/
theorem save_interrupted_truncates_cex :
    savedEmbeddingsFile [[1]] [[2], [3]] 1 = [[2]] ∧
    ([[(2 : ℝ)]] : List (List ℝ)) ≠ [[1]] ∧
    ([[(2 : ℝ)]] : List (List ℝ)) ≠ [[2], [3]] := by
  refine ⟨rfl, ?_, ?_⟩
  · intro h
    rw [List.cons_eq_cons, List.cons_eq_cons] at h
    have : (2 : ℝ) = 1 := h.1.1
    norm_num at this
  · intro h
    have := congrArg List.length h
    simp at this

/-- C5 amended: the save step overwrites the target file in place (no
temporary file, no rename): the prior contents are destroyed unconditionally
the moment the file is opened, and an interruption after k < len(new) vectors
leaves a truncated k-element file differing from the completed one. -/
theorem save_step_overwrites_in_place (prior prior2 new : List (List ℝ))
    (k : Nat) (hk : k < new.length) :
    savedEmbeddingsFile prior new k = savedEmbeddingsFile prior2 new k ∧
    savedEmbeddingsFile prior new k ≠ new ∧
    (savedEmbeddingsFile prior new k).length = k := by
  refine ⟨rfl, ?_, ?_⟩
  · intro h
    have := congrArg List.length h
    rw [savedEmbeddingsFile, List.length_take] at this
    omega
  · rw [savedEmbeddingsFile, List.length_take]
    omega

/-- Witness for C5's amended statement at a two-vector write interrupted after
one vector. -/
theorem save_step_overwrites_in_place_witness :
    1 < ([[(2 : ℝ)], [3]] : List (List ℝ)).length ∧
    (savedEmbeddingsFile [[1]] [[2], [3]] 1 = savedEmbeddingsFile [[5]] [[2], [3]] 1 ∧
    savedEmbeddingsFile [[1]] [[2], [3]] 1 ≠ [[2], [3]] ∧
    (savedEmbeddingsFile [[(1 : ℝ)]] [[2], [3]] 1).length = 1) :=
  ⟨by decide, save_step_overwrites_in_place [[1]] [[5]] [[2], [3]] 1 (by decide)⟩

theorem mem_ranked_take_indexed (titles : List String) (embs : List (List ℝ))
    (q : List ℝ) (p : String × ℝ)
    (hp : p ∈ (rankedTranscripts (titles.zip (similarityScores q embs))).take 3) :
    ∃ i, ∃ (h1 : i < titles.length) (h2 : i < embs.length),
      p.1 = titles[i] ∧ p.2 = cosineSim q embs[i] := by
  have hp1 : p ∈ rankedTranscripts (titles.zip (similarityScores q embs)) :=
    List.Sublist.mem hp (List.take_sublist 3 _)
  have hp2 : p ∈ titles.zip (similarityScores q embs) :=
    (rankedTranscripts_perm _).mem_iff.mp hp1
  obtain ⟨i, hi, hpi⟩ := List.mem_iff_getElem.mp hp2
  have hiz : i < titles.length ⊓ (similarityScores q embs).length := by
    rw [← List.length_zip]; exact hi
  have h1 : i < titles.length := lt_of_lt_of_le hiz (min_le_left _ _)
  have hs : i < (similarityScores q embs).length :=
    lt_of_lt_of_le hiz (min_le_right _ _)
  have h2 : i < embs.length := by
    rw [similarityScores, List.length_map] at hs; exact hs
  refine ⟨i, h1, h2, ?_, ?_⟩
  · rw [← hpi, List.getElem_zip]
  · rw [← hpi, List.getElem_zip]
    show (similarityScores q embs)[i] = cosineSim q embs[i]
    simp [similarityScores]

/-- Two stores identical except for the url column of the ted catalog. -/
def fsUrlA : FileSystem := ⟨[⟨"t", "u1", some "x"⟩], [[1]], [], []⟩

/-- Same store as fsUrlA with a different url in its one catalog row. -/
def fsUrlB : FileSystem := ⟨[⟨"t", "u2", some "x"⟩], [[1]], [], []⟩

/-- C9 counterexample: the recommendation output is identical across two
stores that differ only in their url column, so the returned entries cannot
carry a url field: each entry is a (title, score) pair only (load_data reads
only df["title"], and the output tuples are built from zip(titles, scores)). -/
theorem recommendations_carry_no_url_cex :
    fsUrlA.tedCatalog.map (fun r => r.url) ≠
      fsUrlB.tedCatalog.map (fun r => r.url) ∧
    get_minilm_recs_core encodeLen fsUrlA ['q'] "ted" =
      get_minilm_recs_core encodeLen fsUrlB ['q'] "ted" :=
  ⟨by decide, rfl⟩

/-- C9 amended: every returned entry is a (title, score) pair — no url field
exists in the output — where the title is a corpus title and the score is the
cosine similarity between the query vector and that title's corpus vector;
the list is ordered by non-increasing score. -/
theorem recommendations_title_score_entries (encode : List Char → List ℝ)
    (fs : FileSystem) (input_transcript : List Char) (ted_or_podcast : String) :
    List.Sorted (fun a b => b.2 ≤ a.2)
      (get_minilm_recs_core encode fs input_transcript ted_or_podcast) ∧
    ∀ p ∈ get_minilm_recs_core encode fs input_transcript ted_or_podcast,
      ∃ i, ∃ (h1 : i < (load_data fs ted_or_podcast).1.length)
        (h2 : i < (load_data fs ted_or_podcast).2.length),
        p.1 = (load_data fs ted_or_podcast).1[i] ∧
        p.2 = cosineSim (userInputEmbedding encode input_transcript)
          (load_data fs ted_or_podcast).2[i] := by
  refine ⟨?_, ?_⟩
  · rw [get_minilm_recs_core_eq]
    exact List.Pairwise.sublist (List.take_sublist 3 _) (rankedTranscripts_sorted _)
  · intro p hp
    rw [get_minilm_recs_core_eq] at hp
    exact mem_ranked_take_indexed _ _ _ p hp
